import Mathlib

/-!
Verification development for the geocore spatial covering index
(cell hierarchy, CellCoverer, CoveringIndexBuilder, GeoObjectsIndex reader).

The core read/build algorithms are modelled from the natural-language
specification (spec.md sections 3, 4.1-4.4); the concrete scenarios come
from `indexer/indexer_tests/locality_index_test.cpp`.  Planar coordinates
are embedded as exact rationals (`ℚ`); the spec's projected `double`
coordinates carry no floating-point-specific behaviour in any claim.
Object identifiers are opaque 64-bit values never arithmetically
interpreted by the index, embedded as `ℕ`.
-/

namespace GeoCore

/-- Modelled from the spec: a point of the projected planar coordinate
space ("Geometry: tagged variant {Point(x, y) | ...} in projected planar
coordinates", spec section 3). -/
structure Pt where
  x : ℚ
  y : ℚ
deriving DecidableEq

/-- Modelled from the spec: an axis-aligned rectangle of the projected
planar space (spec section 3, `Rect(minX, minY, maxX, maxY)`). -/
structure Rect where
  minX : ℚ
  minY : ℚ
  maxX : ℚ
  maxY : ℚ
deriving DecidableEq

/-- Closed containment of a point in a rectangle. -/
def Rect.containsPt (r : Rect) (p : Pt) : Bool :=
  decide (r.minX ≤ p.x ∧ p.x ≤ r.maxX ∧ r.minY ≤ p.y ∧ p.y ≤ r.maxY)

/-- Half-open containment of a point in a rectangle.  Modelled from the
spec: the quad-tree descent picks "the child whose rectangle contains the
point" (spec section 4.1); the four children exactly partition the parent
(spec section 3), which forces a half-open convention at internal cell
boundaries. -/
def Rect.containsHO (r : Rect) (p : Pt) : Bool :=
  decide (r.minX ≤ p.x ∧ p.x < r.maxX ∧ r.minY ≤ p.y ∧ p.y < r.maxY)

/-- Closed intersection test between two rectangles. -/
def Rect.intersects (r s : Rect) : Bool :=
  decide (r.minX ≤ s.maxX ∧ s.minX ≤ r.maxX ∧ r.minY ≤ s.maxY ∧ s.minY ≤ r.maxY)

/-- `r` lies entirely inside `s` (component-wise, closed). -/
def Rect.isSubsetOf (r s : Rect) : Bool :=
  decide (s.minX ≤ r.minX ∧ r.maxX ≤ s.maxX ∧ s.minY ≤ r.minY ∧ r.maxY ≤ s.maxY)

def Rect.midX (r : Rect) : ℚ := (r.minX + r.maxX) / 2

def Rect.midY (r : Rect) : ℚ := (r.minY + r.maxY) / 2

/-- Modelled from the spec: "Parent cell's rectangle is exactly
partitioned into 4 children's rectangles" (spec section 3).  Child `i`
of a rectangle, quadrants numbered x-minor; only indices 0..3 arise. -/
def Rect.child (r : Rect) (i : ℕ) : Rect :=
  ⟨if i % 2 = 0 then r.minX else r.midX,
   if i < 2 then r.minY else r.midY,
   if i % 2 = 0 then r.midX else r.maxX,
   if i < 2 then r.midY else r.maxY⟩

/-- The child quadrant whose (half-open) rectangle contains `p`. -/
def Rect.quadrantOf (r : Rect) (p : Pt) : ℕ :=
  if p.x < r.midX then (if p.y < r.midY then 0 else 2)
  else (if p.y < r.midY then 1 else 3)

/-- Modelled from the spec: "Cell: integer key addressing one node of the
quad-tree at a depth in [0, kMaxDepth]; encodes depth and path from root"
(spec section 3).  A cell is embedded as its path of child choices from
the root (each entry in 0..3 by construction); its integer key is
`cellKey`. -/
abbrev Cell := List ℕ

/-- Modelled from the spec: the root rectangle of the fixed quad-tree
subdivision of the projected space (Mercator-projected world square). -/
def worldRect : Rect := ⟨-180, -180, 180, 180⟩

/-- The rectangle of the cell reached from base rectangle `r` along a
path of child choices. -/
def Rect.ofCellFrom (r : Rect) : Cell → Rect
  | [] => r
  | i :: is => (r.child i).ofCellFrom is

/-- "defines a deterministic rectangle in projected space" (spec
section 3): the rectangle of a cell. -/
def cellRect (c : Cell) : Rect := worldRect.ofCellFrom c

/-- The integer key of a cell: a bijective base-4 numbering of paths,
strictly increasing along any root-to-leaf path.  Modelled from the spec:
cells are addressed and sorted by an integer key (spec sections 3, 4.4);
the particular injective numbering is not observable in any claim. -/
def cellKey (c : Cell) : ℕ := c.foldl (fun a i => 4 * a + i + 1) 0

/-- Modelled from the spec: point-geometry covering descent, "descend one
child per level, selecting the child whose rectangle contains the point,
until maxDepth" (spec section 4.1); descent from base rectangle `r`. -/
def pointCellFrom (r : Rect) (p : Pt) : ℕ → Cell
  | 0 => []
  | d + 1 => r.quadrantOf p :: pointCellFrom (r.child (r.quadrantOf p)) p d

/-- The single leaf cell of a point at the given depth. -/
def pointCell (p : Pt) (depth : ℕ) : Cell := pointCellFrom worldRect p depth

/-- Modelled from the spec: rectangle-geometry covering, "recursive
descent from the root; at each cell, if the cell's rectangle lies
entirely within the object rectangle, emit that cell and stop descending
its subtree; if the cell's rectangle does not intersect the object
rectangle, prune; otherwise recurse into children, stopping at maxDepth
where any still-overlapping cell is emitted as-is" (spec section 4.1).
`base` is the path of the current cell and `r` its rectangle. -/
def coverRectFrom (objRect : Rect) (r : Rect) (base : Cell) : ℕ → List Cell
  | 0 => if r.intersects objRect then [base] else []
  | d + 1 =>
    if r.isSubsetOf objRect then [base]
    else if r.intersects objRect then
      [0, 1, 2, 3].flatMap fun i =>
        coverRectFrom objRect (r.child i) (base ++ [i]) d
    else []

/-- Modelled from the spec: `Geometry` is a tagged variant, point or
axis-aligned rectangle (spec section 3). -/
inductive Geometry where
  | pt (p : Pt)
  | rect (r : Rect)
deriving DecidableEq

/-- Modelled from the spec: `CoveredObject` = {id, geometry} (spec
section 3). -/
structure CoveredObject where
  id : ℕ
  geometry : Geometry
deriving DecidableEq

/-- Modelled from the spec: `ComputeCovering(geometry, maxDepth) ->
Covering` (spec section 4.1); a point yields its single leaf cell, a
rectangle the recursive descent covering. -/
def ComputeCovering (g : Geometry) (maxDepth : ℕ) : List Cell :=
  match g with
  | .pt p => [pointCell p maxDepth]
  | .rect r => coverRectFrom r worldRect [] maxDepth

/-- Modelled from the spec: the hierarchy's maximum depth bound
(spec sections 3 and 4.2; the concrete constant is not observable in any
claim beyond being at least the geo-objects depth). -/
def kMaxDepth : ℕ := 21

/-- Modelled from the spec: the depth-levels constant used for the
geo-objects index by the tests (`kGeoObjectsDepthLevels`). -/
def kGeoObjectsDepthLevels : ℕ := 21

/-- Modelled from the spec: `Cover(object, accumulator)` "computes the
object's covering and appends one (cell, id) pair per covering cell"
(spec section 4.2). -/
def coverObject (o : CoveredObject) (depth : ℕ) : List (Cell × ℕ) :=
  (ComputeCovering o.geometry depth).map fun c => (c, o.id)

/-- The merged accumulator of covering entries for an ordered object
stream (spec section 4.2, step before sorting). -/
def objectsCovering (objs : List CoveredObject) (depth : ℕ) : List (Cell × ℕ) :=
  objs.flatMap fun o => coverObject o depth

/-- Sort order of index entries: ascending cell key (spec section 4.2
step 2). -/
def entryLe (a b : Cell × ℕ) : Prop := cellKey a.1 ≤ cellKey b.1

instance : DecidableRel entryLe :=
  fun a b => inferInstanceAs (Decidable (cellKey a.1 ≤ cellKey b.1))

instance : IsTotal (Cell × ℕ) entryLe := ⟨fun a b => Nat.le_total (cellKey a.1) (cellKey b.1)⟩

instance : IsTrans (Cell × ℕ) entryLe := ⟨fun _ _ _ => Nat.le_trans⟩

/-- Modelled from the spec: "Sort merged entries by Cell ascending; ties
(same cell) preserve relative input order (stable sort)" (spec
section 4.2 step 2); insertion sort by non-strict cell key is stable. -/
def sortEntries (l : List (Cell × ℕ)) : List (Cell × ℕ) :=
  List.insertionSort entryLe l

/-- The sorted entry table of the built index for an ordered object
stream: the in-memory view the reader loads (spec sections 3 and 4.3). -/
def builtIndex (objs : List CoveredObject) (depth : ℕ) : List (Cell × ℕ) :=
  sortEntries (objectsCovering objs depth)

/-- Modelled from the spec: "Group contiguous runs sharing a Cell into
one serialized record: {cell, count, id list}" (spec section 4.2
step 3). -/
def groupByCell : List (Cell × ℕ) → List (Cell × List ℕ)
  | [] => []
  | (c, i) :: rest =>
    match groupByCell rest with
    | [] => [(c, [i])]
    | (c2, is) :: gs =>
      if c = c2 then (c, i :: is) :: gs else (c, [i]) :: (c2, is) :: gs

/-- Modelled from the spec: the serialized record stream, "(cellId
delta-encoded, objectCount, objectId list)" (spec section 4.4), with the
byte stream abstracted as a token stream (the spec does not pin the
low-level varint encoding; every claim is insensitive to it). -/
def serializeRecords (prev : ℕ) : List (Cell × List ℕ) → List ℕ
  | [] => []
  | (c, is) :: gs =>
    (cellKey c - prev) :: is.length :: (is ++ serializeRecords (cellKey c) gs)

/-- Modelled from the spec: the full serialized artifact, "header (depth
level count, entry count) + entries sorted ascending by Cell" (spec
sections 3 and 4.4), over an already-sorted entry list. -/
def serializeIndex (depth : ℕ) (sorted : List (Cell × ℕ)) : List ℕ :=
  depth :: (groupByCell sorted).length :: serializeRecords 0 (groupByCell sorted)

/-- Modelled from the spec: `BuildCoveringIndex(entries, sink,
depthLevels)` — "Validate depthLevels is within (0, kMaxDepth]; fails
with BuildError otherwise", then sort stably, group, and write (spec
section 4.2).  `none` stands for `BuildError`. -/
def BuildCoveringIndex (objs : List CoveredObject) (depthLevels : ℕ) :
    Option (List ℕ) :=
  if depthLevels = 0 ∨ kMaxDepth < depthLevels then none
  else some (serializeIndex depthLevels (builtIndex objs depthLevels))

/-- The defining point of a (leaf) cell: the representative point the
reader can recover from the cell alone (spec section 4.3 step 4, "its
leaf cell's defining point"); the center of the cell's rectangle. -/
def cellCenter (c : Cell) : Pt := ⟨(cellRect c).midX, (cellRect c).midY⟩

/-- Modelled from the spec: `ForEachInRect(visit, rect)` (spec
section 4.3): collect entries whose cell rectangle intersects the query
rectangle ("Compute the set of hierarchy cells intersecting rect",
step 1-2), forward a candidate only if its leaf cell's defining point
lies within the rectangle (step 4, the exact variant), and deduplicate
so each id is visited at most once (step 3); no ordering guarantee
(step 5). -/
def ForEachInRect (tbl : List (Cell × ℕ)) (r : Rect) : List ℕ :=
  (((tbl.filter fun e => (cellRect e.1).intersects r).filter
      fun e => r.containsPt (cellCenter e.1)).map fun e => e.2).dedup

/-- Squared distance from a point to a (closed) rectangle; used for the
"cell-to-point distance measured to the cell's rectangle" bound of the
ring expansion (spec section 4.3), via squared comparison to avoid the
square root, which is monotone-equivalent. -/
def distSqToRect (p : Pt) (r : Rect) : ℚ :=
  max 0 (max (r.minX - p.x) (p.x - r.maxX)) ^ 2 +
    max 0 (max (r.minY - p.y) (p.y - r.maxY)) ^ 2

/-- The recorded covering cells of an identifier in a loaded table. -/
def cellsOfId (tbl : List (Cell × ℕ)) (id : ℕ) : List Cell :=
  (tbl.filter fun e => decide (e.2 = id)).map fun e => e.1

/-- A cell lies within `maxD` of the center: its rectangle's distance to
the center is at most `maxD` (compared squared; spec section 4.3,
"candidate objects whose covering cell lies within maxDistance of
center"). -/
def withinRing (center : Pt) (maxD : ℚ) (c : Cell) : Bool :=
  decide (distSqToRect center (cellRect c) ≤ maxD ^ 2)

/-- An object is enclosing when one of its recorded covering cells
contains the center (containment decided at the granularity the index
records, i.e. by covering cells; glossary "Enclosing object" and the
weight-rank test's same-lowermost-cell expectation). -/
def enclosesCenter (tbl : List (Cell × ℕ)) (center : Pt) (id : ℕ) : Bool :=
  (cellsOfId tbl id).any fun c => (cellRect c).containsHO center

/-- Modelled from the spec: the distance-decay weight `max(0, 1 -
distance / maxDistance)` (spec section 4.3). -/
def decayWeight (maxD d : ℚ) : ℚ := max 0 (1 - d / maxD)

/-- The weight assigned to an identifier: exactly 1 for enclosing
objects, the decay of its distance otherwise (spec section 4.3).
`objDist id` is the distance of the object from the query center; the
spec's great-circle distance over projected doubles is embedded as an
abstract nonnegative rational-valued parameter. -/
def weightOfId (objDist : ℕ → ℚ) (maxD : ℚ) (tbl : List (Cell × ℕ))
    (center : Pt) (id : ℕ) : ℚ :=
  if enclosesCenter tbl center id then 1 else decayWeight maxD (objDist id)

/-- Ranking order of weighted candidates: descending weight. -/
def rankGe (a b : ℕ × ℚ) : Prop := b.2 ≤ a.2

instance : DecidableRel rankGe :=
  fun a b => inferInstanceAs (Decidable (b.2 ≤ a.2))

instance : IsTotal (ℕ × ℚ) rankGe := ⟨fun a b => le_total b.2 a.2⟩

instance : IsTrans (ℕ × ℚ) rankGe := ⟨fun _ _ _ h1 h2 => le_trans h2 h1⟩

/-- The weighted candidate objects of a ranked query: deduplicated
identifiers having a covering cell within `maxDistance` of the center,
paired with their weight; candidates of non-positive weight (at or
beyond `maxDistance`) are dropped (spec section 4.3 and concrete
scenario B, where the object exactly at the `maxDistance` border is not
returned). -/
def rankedCandidates (objDist : ℕ → ℚ) (tbl : List (Cell × ℕ)) (center : Pt)
    (maxD : ℚ) : List (ℕ × ℚ) :=
  (((tbl.map fun e => e.2).dedup.filter
      fun id => (cellsOfId tbl id).any (withinRing center maxD)).map
      fun id => (id, weightOfId objDist maxD tbl center id)).filter
    fun c => decide (0 < c.2)

/-- The weight-1.0 candidates: "every object with weight 1.0 (enclosing
objects) is always included" (spec section 4.3). -/
def rankedEnc (objDist : ℕ → ℚ) (tbl : List (Cell × ℕ)) (center : Pt)
    (maxD : ℚ) : List (ℕ × ℚ) :=
  (rankedCandidates objDist tbl center maxD).filter fun c => decide (c.2 = 1)

/-- The remaining (weight < 1.0) candidates, to be ranked and
backfilled. -/
def rankedRest (objDist : ℕ → ℚ) (tbl : List (Cell × ℕ)) (center : Pt)
    (maxD : ℚ) : List (ℕ × ℚ) :=
  (rankedCandidates objDist tbl center maxD).filter fun c => !(decide (c.2 = 1))

/-- Modelled from the spec: `ForClosestToPoint(visit, center,
maxDistance, topSize)` (spec section 4.3): immediate empty return when
`maxDistance <= 0` or `topSize == 0`; otherwise every weight-1.0
(enclosing) candidate is included, and the remaining candidates are
ranked descending by weight and backfilled up to `topSize` total
results (none when the enclosing objects already reach `topSize`);
emission is enclosing objects first, then descending weight. -/
def ForClosestToPoint (objDist : ℕ → ℚ) (tbl : List (Cell × ℕ)) (center : Pt)
    (maxD : ℚ) (topSize : ℕ) : List (ℕ × ℚ) :=
  if maxD ≤ 0 ∨ topSize = 0 then []
  else
    rankedEnc objDist tbl center maxD ++
      (List.insertionSort rankGe (rankedRest objDist tbl center maxD)).take
        (topSize - (rankedEnc objDist tbl center maxD).length)

/-- The identifiers of enclosing candidate objects of a query (used to
state the top-size cutoff rule of spec section 4.3). -/
def enclosingIds (tbl : List (Cell × ℕ)) (center : Pt) : List ℕ :=
  (tbl.map fun e => e.2).dedup.filter fun id => enclosesCenter tbl center id

/-- Containment of the query center in an object's recorded geometry,
stated exactly as the spec's words "the object's recorded geometry
contains center" (spec section 4.3); used to compare the spec's weight
rule against the index's cell-granularity rule. -/
def geomContains (g : Geometry) (p : Pt) : Bool :=
  match g with
  | .pt q => decide (q = p)
  | .rect r => r.containsPt p

/-- Modelled from the spec: a list `l` is a stable by-cell sort of `src`
when it is sorted ascending by cell key and, for every cell key, the
entries of that key appear in `l` exactly in their `src` relative order
(spec section 4.2 step 2).  Any conforming build run produces such a
list. -/
def IsStableCellSort (src l : List (Cell × ℕ)) : Prop :=
  l.Sorted entryLe ∧
    ∀ k : ℕ, (l.filter fun e => decide (cellKey e.1 = k)) =
      src.filter fun e => decide (cellKey e.1 = k)

/-- Concrete scenario A of the tests (`BuildCoveringIndexTest`): four
point objects at (0,0), (1,0), (1,1), (0,1) with ids 1..4. -/
def objsA : List CoveredObject :=
  [⟨1, .pt ⟨0, 0⟩⟩, ⟨2, .pt ⟨1, 0⟩⟩, ⟨3, .pt ⟨1, 1⟩⟩, ⟨4, .pt ⟨0, 1⟩⟩]

/-- The built index table of scenario A at the geo-objects depth. -/
def indexA : List (Cell × ℕ) := builtIndex objsA kGeoObjectsDepthLevels

/-- A single point object with id 1 at the origin. -/
def objsOrigin : List CoveredObject := [⟨1, .pt ⟨0, 0⟩⟩]

/-- The built index table of the single origin object. -/
def indexOrigin : List (Cell × ℕ) := builtIndex objsOrigin kGeoObjectsDepthLevels

/-- A single point object with id 2 at (3e-7, 4e-7): distinct from the
origin but inside the origin's lowermost-depth cell, at exact planar
distance 5e-7 from the origin. -/
def objsNearOrigin : List CoveredObject :=
  [⟨2, .pt ⟨3 / 10000000, 4 / 10000000⟩⟩]

/-- The built index table of the near-origin object. -/
def indexNearOrigin : List (Cell × ℕ) :=
  builtIndex objsNearOrigin kGeoObjectsDepthLevels

theorem Rect.containsPt_iff {r : Rect} {p : Pt} :
    r.containsPt p = true ↔
      r.minX ≤ p.x ∧ p.x ≤ r.maxX ∧ r.minY ≤ p.y ∧ p.y ≤ r.maxY := by
  simp [Rect.containsPt]

theorem Rect.containsHO_iff {r : Rect} {p : Pt} :
    r.containsHO p = true ↔
      r.minX ≤ p.x ∧ p.x < r.maxX ∧ r.minY ≤ p.y ∧ p.y < r.maxY := by
  simp [Rect.containsHO]

theorem Rect.intersects_iff {r s : Rect} :
    r.intersects s = true ↔
      r.minX ≤ s.maxX ∧ s.minX ≤ r.maxX ∧ r.minY ≤ s.maxY ∧ s.minY ≤ r.maxY := by
  simp [Rect.intersects]

theorem Rect.isSubsetOf_iff {r s : Rect} :
    r.isSubsetOf s = true ↔
      s.minX ≤ r.minX ∧ r.maxX ≤ s.maxX ∧ s.minY ≤ r.minY ∧ r.maxY ≤ s.maxY := by
  simp [Rect.isSubsetOf]

theorem Rect.child_zero (r : Rect) :
    r.child 0 = ⟨r.minX, r.minY, r.midX, r.midY⟩ := rfl

theorem Rect.child_one (r : Rect) :
    r.child 1 = ⟨r.midX, r.minY, r.maxX, r.midY⟩ := rfl

theorem Rect.child_two (r : Rect) :
    r.child 2 = ⟨r.minX, r.midY, r.midX, r.maxY⟩ := rfl

theorem Rect.child_three (r : Rect) :
    r.child 3 = ⟨r.midX, r.midY, r.maxX, r.maxY⟩ := rfl

theorem containsPt_child_quadrantOf {r : Rect} {p : Pt}
    (h : r.containsPt p = true) :
    (r.child (r.quadrantOf p)).containsPt p = true := by
  rw [Rect.containsPt_iff] at h
  obtain ⟨h1, h2, h3, h4⟩ := h
  rw [Rect.quadrantOf]
  by_cases hx : p.x < r.midX
  · by_cases hy : p.y < r.midY
    · rw [if_pos hx, if_pos hy, Rect.child_zero, Rect.containsPt_iff]
      exact ⟨h1, hx.le, h3, hy.le⟩
    · rw [if_pos hx, if_neg hy, Rect.child_two, Rect.containsPt_iff]
      exact ⟨h1, hx.le, le_of_not_lt hy, h4⟩
  · by_cases hy : p.y < r.midY
    · rw [if_neg hx, if_pos hy, Rect.child_one, Rect.containsPt_iff]
      exact ⟨le_of_not_lt hx, h2, h3, hy.le⟩
    · rw [if_neg hx, if_neg hy, Rect.child_three, Rect.containsPt_iff]
      exact ⟨le_of_not_lt hx, h2, le_of_not_lt hy, h4⟩

theorem containsHO_child_quadrantOf {r : Rect} {p : Pt}
    (h : r.containsHO p = true) :
    (r.child (r.quadrantOf p)).containsHO p = true := by
  rw [Rect.containsHO_iff] at h
  obtain ⟨h1, h2, h3, h4⟩ := h
  rw [Rect.quadrantOf]
  by_cases hx : p.x < r.midX
  · by_cases hy : p.y < r.midY
    · rw [if_pos hx, if_pos hy, Rect.child_zero, Rect.containsHO_iff]
      exact ⟨h1, hx, h3, hy⟩
    · rw [if_pos hx, if_neg hy, Rect.child_two, Rect.containsHO_iff]
      exact ⟨h1, hx, le_of_not_lt hy, h4⟩
  · by_cases hy : p.y < r.midY
    · rw [if_neg hx, if_pos hy, Rect.child_one, Rect.containsHO_iff]
      exact ⟨le_of_not_lt hx, h2, h3, hy⟩
    · rw [if_neg hx, if_neg hy, Rect.child_three, Rect.containsHO_iff]
      exact ⟨le_of_not_lt hx, h2, le_of_not_lt hy, h4⟩

theorem pointCellFrom_length (p : Pt) :
    ∀ (d : ℕ) (r : Rect), (pointCellFrom r p d).length = d
  | 0, _ => rfl
  | d + 1, r => by
    rw [pointCellFrom, List.length_cons, pointCellFrom_length p d]

theorem ofCellFrom_pointCellFrom_containsPt (p : Pt) :
    ∀ (d : ℕ) (r : Rect), r.containsPt p = true →
      (r.ofCellFrom (pointCellFrom r p d)).containsPt p = true
  | 0, _, h => h
  | d + 1, r, h =>
    ofCellFrom_pointCellFrom_containsPt p d (r.child (r.quadrantOf p))
      (containsPt_child_quadrantOf h)

theorem ofCellFrom_pointCellFrom_containsHO (p : Pt) :
    ∀ (d : ℕ) (r : Rect), r.containsHO p = true →
      (r.ofCellFrom (pointCellFrom r p d)).containsHO p = true
  | 0, _, h => h
  | d + 1, r, h =>
    ofCellFrom_pointCellFrom_containsHO p d (r.child (r.quadrantOf p))
      (containsHO_child_quadrantOf h)

theorem cellRect_pointCell_containsPt {p : Pt} (d : ℕ)
    (h : worldRect.containsPt p = true) :
    (cellRect (pointCell p d)).containsPt p = true :=
  ofCellFrom_pointCellFrom_containsPt p d worldRect h

theorem cellRect_pointCell_containsHO {p : Pt} (d : ℕ)
    (h : worldRect.containsHO p = true) :
    (cellRect (pointCell p d)).containsHO p = true :=
  ofCellFrom_pointCellFrom_containsHO p d worldRect h

/-- C9: for every point geometry (within the projected coordinate
space) and every maxDepth, `ComputeCovering` returns exactly one cell,
that cell's depth (path length) is exactly maxDepth, its rectangle
contains the point, and a point object contributes exactly one
(cell, id) entry to the index. -/
theorem point_covering_single_cell (p : Pt) (maxDepth : ℕ) (oid : ℕ)
    (hp : worldRect.containsPt p = true) :
    ∃ c : Cell, ComputeCovering (.pt p) maxDepth = [c] ∧
      c.length = maxDepth ∧ (cellRect c).containsPt p = true ∧
      coverObject ⟨oid, .pt p⟩ maxDepth = [(c, oid)] :=
  ⟨pointCell p maxDepth, rfl, pointCellFrom_length p maxDepth worldRect,
    cellRect_pointCell_containsPt maxDepth hp, rfl⟩

/-- Witness for C9 at the concrete point (1, 0), depth 21, id 7. -/
theorem point_covering_single_cell_witness :
    worldRect.containsPt ⟨1, 0⟩ = true ∧
      ∃ c : Cell, ComputeCovering (.pt ⟨1, 0⟩) kGeoObjectsDepthLevels = [c] ∧
        c.length = kGeoObjectsDepthLevels ∧ (cellRect c).containsPt ⟨1, 0⟩ = true ∧
        coverObject ⟨7, .pt ⟨1, 0⟩⟩ kGeoObjectsDepthLevels = [(c, 7)] :=
  ⟨by with_unfolding_all rfl,
    point_covering_single_cell ⟨1, 0⟩ kGeoObjectsDepthLevels 7
      (by with_unfolding_all rfl)⟩

theorem mem_ForEachInRect {tbl : List (Cell × ℕ)} {r : Rect} {i : ℕ} :
    i ∈ ForEachInRect tbl r ↔
      ∃ c : Cell, (c, i) ∈ tbl ∧ (cellRect c).intersects r = true ∧
        r.containsPt (cellCenter c) = true := by
  simp only [ForEachInRect, List.mem_dedup, List.mem_map, List.mem_filter]
  constructor
  · rintro ⟨e, ⟨⟨he, h1⟩, h2⟩, rfl⟩
    exact ⟨e.1, he, h1, h2⟩
  · rintro ⟨c, hc, h1, h2⟩
    exact ⟨(c, i), ⟨⟨hc, h1⟩, h2⟩, rfl⟩

/-- C6: a single `ForEachInRect` call over a built index visits each
object identifier at most once, even when an object lies under several
matching cells of the table (the reader deduplicates candidates). -/
theorem ForEachInRect_visits_once (objs : List CoveredObject) (depth : ℕ)
    (r : Rect) : (ForEachInRect (builtIndex objs depth) r).Nodup :=
  List.nodup_dedup _

/-- C8: enlarging the query rectangle never removes identifiers: every
id visited by `ForEachInRect` over `r1` is also visited over any
rectangle `r2` containing `r1`. -/
theorem ForEachInRect_monotone (objs : List CoveredObject) (depth : ℕ)
    {r1 r2 : Rect} (hsub : r1.isSubsetOf r2 = true) {i : ℕ}
    (h : i ∈ ForEachInRect (builtIndex objs depth) r1) :
    i ∈ ForEachInRect (builtIndex objs depth) r2 := by
  rw [mem_ForEachInRect] at h ⊢
  obtain ⟨c, hc, hint, hcen⟩ := h
  rw [Rect.isSubsetOf_iff] at hsub
  obtain ⟨s1, s2, s3, s4⟩ := hsub
  refine ⟨c, hc, ?_, ?_⟩
  · rw [Rect.intersects_iff] at hint ⊢
    obtain ⟨a1, a2, a3, a4⟩ := hint
    exact ⟨by linarith, by linarith, by linarith, by linarith⟩
  · rw [Rect.containsPt_iff] at hcen ⊢
    obtain ⟨b1, b2, b3, b4⟩ := hcen
    exact ⟨by linarith, by linarith, by linarith, by linarith⟩

/-- Witness for C8: in scenario A, id 1 is visited for the rectangle
(-0.5,-0.5)-(0.5,0.5) and therefore also for the enclosing rectangle
(-0.5,-0.5)-(1.5,1.5). -/
theorem ForEachInRect_monotone_witness :
    (Rect.isSubsetOf ⟨-1/2, -1/2, 1/2, 1/2⟩ ⟨-1/2, -1/2, 3/2, 3/2⟩ = true ∧
      1 ∈ ForEachInRect (builtIndex objsA kGeoObjectsDepthLevels)
        ⟨-1/2, -1/2, 1/2, 1/2⟩) ∧
    1 ∈ ForEachInRect (builtIndex objsA kGeoObjectsDepthLevels)
      ⟨-1/2, -1/2, 3/2, 3/2⟩ := by
  have hsub : Rect.isSubsetOf ⟨-1/2, -1/2, 1/2, 1/2⟩ ⟨-1/2, -1/2, 3/2, 3/2⟩
      = true := by
    with_unfolding_all rfl
  have heq : ForEachInRect (builtIndex objsA kGeoObjectsDepthLevels)
      ⟨-1/2, -1/2, 1/2, 1/2⟩ = [1] := by
    with_unfolding_all rfl
  have hmem : 1 ∈ ForEachInRect (builtIndex objsA kGeoObjectsDepthLevels)
      ⟨-1/2, -1/2, 1/2, 1/2⟩ := by
    rw [heq]
    exact List.mem_singleton.mpr rfl
  exact ⟨⟨hsub, hmem⟩,
    ForEachInRect_monotone objsA kGeoObjectsDepthLevels hsub hmem⟩

set_option maxRecDepth 8000 in
/-- C5 (amended): `ForEachInRect` visits an id exactly when some table
entry of that id has a cell rectangle intersecting the query rectangle
and a cell defining point (cell center) inside it — exact-point
containment is decided at leaf-cell granularity; the concrete scenario A
holds as stated: rect (-0.5,-0.5)-(0.5,0.5) yields {1}, rect
(0.5,-0.5)-(1.5,1.5) yields {2,3}, rect (-0.5,-0.5)-(1.5,1.5) yields
{1,2,3,4}. -/
theorem ForEachInRect_cell_granularity :
    (∀ (tbl : List (Cell × ℕ)) (r : Rect) (i : ℕ),
        i ∈ ForEachInRect tbl r ↔
          ∃ c : Cell, (c, i) ∈ tbl ∧ (cellRect c).intersects r = true ∧
            r.containsPt (cellCenter c) = true) ∧
    (ForEachInRect indexA ⟨-1/2, -1/2, 1/2, 1/2⟩).toFinset = {1} ∧
    (ForEachInRect indexA ⟨1/2, -1/2, 3/2, 3/2⟩).toFinset = {2, 3} ∧
    (ForEachInRect indexA ⟨-1/2, -1/2, 3/2, 3/2⟩).toFinset = {1, 2, 3, 4} :=
  ⟨fun _ _ _ => mem_ForEachInRect, by with_unfolding_all rfl,
    by with_unfolding_all rfl, by with_unfolding_all decide⟩

set_option maxRecDepth 8000 in
/-- C5 counterexample: the query rectangle (-1,-1)-(45/1048576,
45/1048576) contains the recorded point (0,0) of the indexed object 1,
yet `ForEachInRect` does not visit id 1: the rectangle stops short of
the leaf cell's defining point (the cell center (45/524288, 45/524288)),
so exact-point containment does not guarantee a visit. -/
theorem ForEachInRect_exact_point_counterexample :
    Rect.containsPt ⟨-1, -1, 45/1048576, 45/1048576⟩ ⟨0, 0⟩ = true ∧
      ForEachInRect indexOrigin ⟨-1, -1, 45/1048576, 45/1048576⟩ = [] ∧
      ¬(1 ∈ ForEachInRect indexOrigin ⟨-1, -1, 45/1048576, 45/1048576⟩) := by
  refine ⟨by with_unfolding_all rfl, by with_unfolding_all rfl, ?_⟩
  have he : ForEachInRect indexOrigin ⟨-1, -1, 45/1048576, 45/1048576⟩ = [] :=
    by with_unfolding_all rfl
  rw [he]
  exact List.not_mem_nil 1

theorem distSqToRect_eq_zero_of_containsHO {p : Pt} {r : Rect}
    (h : r.containsHO p = true) : distSqToRect p r = 0 := by
  rw [Rect.containsHO_iff] at h
  obtain ⟨h1, h2, h3, h4⟩ := h
  unfold distSqToRect
  have hx : max (r.minX - p.x) (p.x - r.maxX) ≤ 0 := by
    apply max_le <;> linarith
  have hy : max (r.minY - p.y) (p.y - r.maxY) ≤ 0 := by
    apply max_le <;> linarith
  rw [max_eq_left hx, max_eq_left hy]
  norm_num

theorem mem_map_snd_of_cellsOfId {tbl : List (Cell × ℕ)} {i : ℕ} {c : Cell}
    (h : c ∈ cellsOfId tbl i) : i ∈ tbl.map fun e => e.2 := by
  unfold cellsOfId at h
  simp only [List.mem_map, List.mem_filter] at h
  obtain ⟨e, ⟨he, heq⟩, rfl⟩ := h
  exact List.mem_map.mpr ⟨e, he, of_decide_eq_true heq⟩

theorem weightOfId_eq_one_of_encloses {objDist : ℕ → ℚ} {maxD : ℚ}
    {tbl : List (Cell × ℕ)} {center : Pt} {i : ℕ}
    (henc : enclosesCenter tbl center i = true) :
    weightOfId objDist maxD tbl center i = 1 := by
  unfold weightOfId
  rw [if_pos henc]

theorem enclosesCenter_mem_rankedEnc {objDist : ℕ → ℚ} {tbl : List (Cell × ℕ)}
    {center : Pt} {maxD : ℚ} {i : ℕ}
    (henc : enclosesCenter tbl center i = true) :
    (i, 1) ∈ rankedEnc objDist tbl center maxD := by
  have henc0 := henc
  unfold enclosesCenter at henc
  rw [List.any_eq_true] at henc
  obtain ⟨c, hc, hcont⟩ := henc
  have hw : weightOfId objDist maxD tbl center i = 1 :=
    weightOfId_eq_one_of_encloses henc0
  have hid : i ∈ tbl.map fun e => e.2 := mem_map_snd_of_cellsOfId hc
  have hany : (cellsOfId tbl i).any (withinRing center maxD) = true := by
    rw [List.any_eq_true]
    refine ⟨c, hc, ?_⟩
    unfold withinRing
    rw [decide_eq_true_iff, distSqToRect_eq_zero_of_containsHO hcont]
    positivity
  have hcand : (i, weightOfId objDist maxD tbl center i) ∈
      rankedCandidates objDist tbl center maxD := by
    unfold rankedCandidates
    rw [List.mem_filter]
    refine ⟨List.mem_map.mpr ⟨i, ?_, rfl⟩, ?_⟩
    · rw [List.mem_filter]
      exact ⟨List.mem_dedup.mpr hid, hany⟩
    · rw [hw]
      norm_num
  rw [hw] at hcand
  unfold rankedEnc
  rw [List.mem_filter]
  refine ⟨hcand, ?_⟩
  norm_num

theorem not_degenerate_of_bounds {maxD : ℚ} {topSize : ℕ}
    (hmd : 0 < maxD) (hts : 1 ≤ topSize) : ¬(maxD ≤ 0 ∨ topSize = 0) := by
  rintro (h | h)
  · exact absurd hmd (not_lt.mpr h)
  · omega

theorem enclosing_mem_ForClosestToPoint {objDist : ℕ → ℚ}
    {tbl : List (Cell × ℕ)} {center : Pt} {maxD : ℚ} {topSize : ℕ} {i : ℕ}
    (hmd : 0 < maxD) (hts : 1 ≤ topSize)
    (henc : enclosesCenter tbl center i = true) :
    (i, 1) ∈ ForClosestToPoint objDist tbl center maxD topSize := by
  unfold ForClosestToPoint
  rw [if_neg (not_degenerate_of_bounds hmd hts)]
  exact List.mem_append_left _ (enclosesCenter_mem_rankedEnc henc)

theorem snd_eq_weight_of_mem_rankedCandidates {objDist : ℕ → ℚ}
    {tbl : List (Cell × ℕ)} {center : Pt} {maxD : ℚ} {q : ℕ × ℚ}
    (h : q ∈ rankedCandidates objDist tbl center maxD) :
    q.2 = weightOfId objDist maxD tbl center q.1 := by
  unfold rankedCandidates at h
  rw [List.mem_filter] at h
  obtain ⟨h1, _⟩ := h
  rw [List.mem_map] at h1
  obtain ⟨a, _, rfl⟩ := h1
  rfl

theorem pos_snd_of_mem_rankedCandidates {objDist : ℕ → ℚ}
    {tbl : List (Cell × ℕ)} {center : Pt} {maxD : ℚ} {q : ℕ × ℚ}
    (h : q ∈ rankedCandidates objDist tbl center maxD) : 0 < q.2 := by
  unfold rankedCandidates at h
  rw [List.mem_filter] at h
  exact of_decide_eq_true h.2

theorem mem_rankedCandidates_of_mem_ForClosestToPoint {objDist : ℕ → ℚ}
    {tbl : List (Cell × ℕ)} {center : Pt} {maxD : ℚ} {topSize : ℕ} {q : ℕ × ℚ}
    (h : q ∈ ForClosestToPoint objDist tbl center maxD topSize) :
    q ∈ rankedCandidates objDist tbl center maxD := by
  unfold ForClosestToPoint at h
  by_cases hc : maxD ≤ 0 ∨ topSize = 0
  · rw [if_pos hc] at h
    exact absurd h (List.not_mem_nil q)
  · rw [if_neg hc] at h
    rcases List.mem_append.mp h with h | h
    · exact (List.mem_filter.mp h).1
    · have h1 : q ∈ List.insertionSort rankGe (rankedRest objDist tbl center maxD) :=
        List.take_subset _ _ h
      have h2 : q ∈ rankedRest objDist tbl center maxD :=
        (List.perm_insertionSort rankGe _).mem_iff.mp h1
      exact (List.mem_filter.mp h2).1

theorem weightOfId_le_one {objDist : ℕ → ℚ} {maxD : ℚ}
    {tbl : List (Cell × ℕ)} {center : Pt} {i : ℕ}
    (hd : 0 ≤ objDist i) (hmd : 0 < maxD) :
    weightOfId objDist maxD tbl center i ≤ 1 := by
  unfold weightOfId
  split_ifs
  · exact le_refl 1
  · unfold decayWeight
    apply max_le
    · norm_num
    · have hq : 0 ≤ objDist i / maxD := div_nonneg hd hmd.le
      linarith

theorem decayWeight_strict_anti {maxD d1 d2 : ℚ} (hmd : 0 < maxD)
    (h12 : d1 < d2) (h2 : d2 ≤ maxD) :
    decayWeight maxD d2 < decayWeight maxD d1 := by
  unfold decayWeight
  have hd2 : 0 ≤ 1 - d2 / maxD := by
    have hq : d2 / maxD ≤ 1 := (div_le_one hmd).mpr h2
    linarith
  rw [max_eq_right hd2]
  have hlt : 1 - d2 / maxD < 1 - d1 / maxD := by
    have hq : d1 / maxD < d2 / maxD := by gcongr
    linarith
  exact lt_of_lt_of_le hlt (le_max_right 0 _)

theorem decayWeight_at_max {maxD : ℚ} (hmd : 0 < maxD) :
    decayWeight maxD maxD = 0 := by
  unfold decayWeight
  rw [div_self (ne_of_gt hmd)]
  norm_num

/-- C4: a ranked query with `maxDistance <= 0` or `topSize == 0` visits
nothing and returns immediately. -/
theorem ForClosestToPoint_degenerate (objDist : ℕ → ℚ)
    (tbl : List (Cell × ℕ)) (center : Pt) (maxD : ℚ) (topSize : ℕ)
    (h : maxD ≤ 0 ∨ topSize = 0) :
    ForClosestToPoint objDist tbl center maxD topSize = [] := by
  unfold ForClosestToPoint
  rw [if_pos h]

/-- Witness for C4: the scenario-A index at `maxDistance = -1` yields no
visits. -/
theorem ForClosestToPoint_degenerate_witness :
    ((-1 : ℚ) ≤ 0 ∨ (5 : ℕ) = 0) ∧
      ForClosestToPoint (fun _ => 1) indexA ⟨0, 0⟩ (-1) 5 = [] :=
  ⟨Or.inl (by norm_num),
    ForClosestToPoint_degenerate (fun _ => 1) indexA ⟨0, 0⟩ (-1) 5
      (Or.inl (by norm_num))⟩

/-- C1 (amended): for every ranked query, the weight delivered with a
visited object is exactly `weightOfId`: `1.0` when some recorded
covering cell of the object contains the center (containment at
covering-cell granularity), and otherwise `max(0, 1 -
distance/maxDistance)`; the decay is strictly decreasing in distance up
to `maxDistance` and reaches 0 at `maxDistance`. -/
theorem ForClosestToPoint_weight_formula (objDist : ℕ → ℚ)
    (tbl : List (Cell × ℕ)) (center : Pt) (maxD : ℚ) (topSize : ℕ)
    (hmd : 0 < maxD) :
    (∀ i w, (i, w) ∈ ForClosestToPoint objDist tbl center maxD topSize →
        w = (if enclosesCenter tbl center i then (1 : ℚ)
          else decayWeight maxD (objDist i))) ∧
    (∀ d1 d2 : ℚ, d1 < d2 → d2 ≤ maxD →
        decayWeight maxD d2 < decayWeight maxD d1) ∧
    decayWeight maxD maxD = 0 := by
  refine ⟨?_, fun d1 d2 h12 h2 => decayWeight_strict_anti hmd h12 h2,
    decayWeight_at_max hmd⟩
  intro i w h
  have hc := mem_rankedCandidates_of_mem_ForClosestToPoint h
  have := snd_eq_weight_of_mem_rankedCandidates hc
  exact this

/-- Witness for C1 (amended) at the near-origin index, center (0,0),
distance 5e-7, maxDistance 2, topSize 1. -/
theorem ForClosestToPoint_weight_formula_witness :
    (0 : ℚ) < 2 ∧
      ((∀ i w, (i, w) ∈ ForClosestToPoint (fun _ => 5 / 10000000)
            indexNearOrigin ⟨0, 0⟩ 2 1 →
          w = (if enclosesCenter indexNearOrigin ⟨0, 0⟩ i then (1 : ℚ)
            else decayWeight 2 ((fun _ => (5 : ℚ) / 10000000) i))) ∧
      (∀ d1 d2 : ℚ, d1 < d2 → d2 ≤ 2 →
          decayWeight 2 d2 < decayWeight 2 d1) ∧
      decayWeight 2 2 = 0) :=
  ⟨by norm_num,
    ForClosestToPoint_weight_formula (fun _ => 5 / 10000000) indexNearOrigin
      ⟨0, 0⟩ 2 1 (by norm_num)⟩

set_option maxRecDepth 8000 in
/-- C1 counterexample: the indexed point object 2 at (3e-7, 4e-7) does
not contain the query center (0,0) in its recorded geometry, its planar
distance from the center is 5e-7 > 0, yet the ranked query delivers it
with weight exactly 1 (its lowermost cell contains the center), not
`max(0, 1 - d/maxDistance) = 1 - (5e-7)/2 < 1` as the claim states. -/
theorem ForClosestToPoint_weight_counterexample :
    ForClosestToPoint (fun _ => 5 / 10000000) indexNearOrigin ⟨0, 0⟩ 2 1 =
        [(2, 1)] ∧
      geomContains (.pt ⟨3 / 10000000, 4 / 10000000⟩) ⟨0, 0⟩ = false ∧
      (1 : ℚ) ≠ (if geomContains (.pt ⟨3 / 10000000, 4 / 10000000⟩) ⟨0, 0⟩
        then (1 : ℚ) else decayWeight 2 (5 / 10000000)) := by
  refine ⟨by with_unfolding_all rfl, by with_unfolding_all rfl, ?_⟩
  rw [if_neg]
  · unfold decayWeight
    norm_num
  · rw [show geomContains (.pt ⟨3 / 10000000, 4 / 10000000⟩) ⟨0, 0⟩ = false
      from by with_unfolding_all rfl]
    exact Bool.false_ne_true

theorem enclosingIds_length_le_rankedEnc {objDist : ℕ → ℚ}
    {tbl : List (Cell × ℕ)} {center : Pt} {maxD : ℚ} :
    (enclosingIds tbl center).length ≤
      (rankedEnc objDist tbl center maxD).length := by
  have hsub : enclosingIds tbl center ⊆
      (rankedEnc objDist tbl center maxD).map fun q => q.1 := by
    intro i hi
    unfold enclosingIds at hi
    rw [List.mem_filter] at hi
    exact List.mem_map.mpr ⟨(i, 1), enclosesCenter_mem_rankedEnc hi.2, rfl⟩
  have hnd : (enclosingIds tbl center).Nodup := (List.nodup_dedup _).filter _
  have hle := (List.subperm_of_subset hnd hsub).length_le
  simpa using hle

/-- C2 (amended): for every ranked query with `maxDistance > 0` and
`topSize >= 1`, every enclosing object is included in the results with
weight 1.0; and when the enclosing objects already reach `topSize`, every
visited object has weight 1.0 (no weight-below-1 object is backfilled). -/
theorem ForClosestToPoint_enclosing_selection (objDist : ℕ → ℚ)
    (tbl : List (Cell × ℕ)) (center : Pt) (maxD : ℚ) (topSize : ℕ)
    (hmd : 0 < maxD) (hts : 1 ≤ topSize) :
    (∀ i, enclosesCenter tbl center i = true →
        (i, 1) ∈ ForClosestToPoint objDist tbl center maxD topSize) ∧
    (topSize ≤ (enclosingIds tbl center).length →
        ∀ q ∈ ForClosestToPoint objDist tbl center maxD topSize, q.2 = 1) := by
  constructor
  · exact fun i henc => enclosing_mem_ForClosestToPoint hmd hts henc
  · intro hcut q hq
    unfold ForClosestToPoint at hq
    rw [if_neg (not_degenerate_of_bounds hmd hts)] at hq
    have hz : topSize - (rankedEnc objDist tbl center maxD).length = 0 :=
      Nat.sub_eq_zero_of_le (le_trans hcut enclosingIds_length_le_rankedEnc)
    rw [hz, List.take_zero, List.append_nil] at hq
    unfold rankedEnc at hq
    rw [List.mem_filter] at hq
    exact of_decide_eq_true hq.2

/-- Witness for C2 (amended) on the origin index with `topSize = 1`. -/
theorem ForClosestToPoint_enclosing_selection_witness :
    ((0 : ℚ) < 1 ∧ 1 ≤ 1) ∧
      ((∀ i, enclosesCenter indexOrigin ⟨0, 0⟩ i = true →
          (i, 1) ∈ ForClosestToPoint (fun _ => 0) indexOrigin ⟨0, 0⟩ 1 1) ∧
      (1 ≤ (enclosingIds indexOrigin ⟨0, 0⟩).length →
          ∀ q ∈ ForClosestToPoint (fun _ => 0) indexOrigin ⟨0, 0⟩ 1 1,
            q.2 = 1)) :=
  ⟨⟨by norm_num, le_refl 1⟩,
    ForClosestToPoint_enclosing_selection (fun _ => 0) indexOrigin ⟨0, 0⟩ 1 1
      (by norm_num) (le_refl 1)⟩

set_option maxRecDepth 8000 in
/-- C2 counterexample: object 1 encloses the center (0,0) and carries
weight 1.0, yet with `topSize = 0` the call returns no visits at all, so
a weight-1.0 object is not included "regardless of topSize". -/
theorem ForClosestToPoint_topSize_zero_counterexample :
    enclosesCenter indexOrigin ⟨0, 0⟩ 1 = true ∧
      weightOfId (fun _ => 0) 1 indexOrigin ⟨0, 0⟩ 1 = 1 ∧
      ForClosestToPoint (fun _ => 0) indexOrigin ⟨0, 0⟩ 1 0 = [] ∧
      ¬((1, (1 : ℚ)) ∈ ForClosestToPoint (fun _ => 0) indexOrigin ⟨0, 0⟩ 1 0) := by
  refine ⟨by with_unfolding_all rfl, by with_unfolding_all rfl,
    by with_unfolding_all rfl, ?_⟩
  have he : ForClosestToPoint (fun _ => 0) indexOrigin ⟨0, 0⟩ 1 0 = [] :=
    by with_unfolding_all rfl
  rw [he]
  exact List.not_mem_nil (1, (1 : ℚ))

/-- C10: every indexed point object whose lowermost-depth covering cell
equals the cell containing the query center is assigned weight exactly
1.0 and is included in the results of every ranked query with
`maxDistance > 0` and `topSize > 0`, even when the recorded point is
distinct from the center: containment for weighting is decided at cell
granularity, not from the exact recorded geometry. -/
theorem point_same_cell_weight_one (objDist : ℕ → ℚ)
    (objs : List CoveredObject) (depth : ℕ) (o : CoveredObject)
    (p center : Pt) (maxD : ℚ) (topSize : ℕ)
    (ho : o ∈ objs) (hg : o.geometry = .pt p)
    (hcell : pointCell p depth = pointCell center depth)
    (hw : worldRect.containsHO center = true)
    (hmd : 0 < maxD) (hts : 1 ≤ topSize) :
    weightOfId objDist maxD (builtIndex objs depth) center o.id = 1 ∧
      (o.id, 1) ∈ ForClosestToPoint objDist (builtIndex objs depth) center
        maxD topSize := by
  have hent : (pointCell p depth, o.id) ∈ builtIndex objs depth := by
    have h1 : (pointCell p depth, o.id) ∈ objectsCovering objs depth := by
      unfold objectsCovering
      rw [List.mem_flatMap]
      refine ⟨o, ho, ?_⟩
      unfold coverObject
      rw [hg]
      rw [show ComputeCovering (.pt p) depth = [pointCell p depth] from rfl]
      simp
    unfold builtIndex sortEntries
    exact (List.perm_insertionSort entryLe _).mem_iff.mpr h1
  have hcells : pointCell p depth ∈ cellsOfId (builtIndex objs depth) o.id := by
    unfold cellsOfId
    rw [List.mem_map]
    exact ⟨(pointCell p depth, o.id), List.mem_filter.mpr ⟨hent, by simp⟩, rfl⟩
  have henc : enclosesCenter (builtIndex objs depth) center o.id = true := by
    unfold enclosesCenter
    rw [List.any_eq_true]
    refine ⟨pointCell p depth, hcells, ?_⟩
    rw [hcell]
    exact cellRect_pointCell_containsHO depth hw
  exact ⟨weightOfId_eq_one_of_encloses henc,
    enclosing_mem_ForClosestToPoint hmd hts henc⟩

set_option maxRecDepth 8000 in
set_option maxHeartbeats 2000000 in
/-- Witness for C10: the object at (3e-7, 4e-7) shares the lowermost
cell of the center (0,0) and is delivered with weight 1.0. -/
theorem point_same_cell_weight_one_witness :
    pointCell ⟨3 / 10000000, 4 / 10000000⟩ kGeoObjectsDepthLevels =
        pointCell ⟨0, 0⟩ kGeoObjectsDepthLevels ∧
      weightOfId (fun _ => 5 / 10000000) 1
          (builtIndex objsNearOrigin kGeoObjectsDepthLevels) ⟨0, 0⟩ 2 = 1 ∧
      (2, 1) ∈ ForClosestToPoint (fun _ => 5 / 10000000)
        (builtIndex objsNearOrigin kGeoObjectsDepthLevels) ⟨0, 0⟩ 1 1 := by
  have hcell : pointCell ⟨3 / 10000000, 4 / 10000000⟩ kGeoObjectsDepthLevels =
      pointCell ⟨0, 0⟩ kGeoObjectsDepthLevels :=
    of_decide_eq_true (by with_unfolding_all rfl)
  have hres := point_same_cell_weight_one (fun _ => 5 / 10000000)
    objsNearOrigin kGeoObjectsDepthLevels
    ⟨2, .pt ⟨3 / 10000000, 4 / 10000000⟩⟩ ⟨3 / 10000000, 4 / 10000000⟩
    ⟨0, 0⟩ 1 1 (by unfold objsNearOrigin; exact List.mem_singleton.mpr rfl) rfl
    hcell (by with_unfolding_all rfl) (by norm_num) (le_refl 1)
  exact ⟨hcell, hres.1, hres.2⟩

theorem rankedCandidates_ids_nodup (objDist : ℕ → ℚ) (tbl : List (Cell × ℕ))
    (center : Pt) (maxD : ℚ) :
    ((rankedCandidates objDist tbl center maxD).map fun q => q.1).Nodup := by
  unfold rankedCandidates
  have h0 : ((tbl.map fun e => e.2).dedup.filter
      fun i => (cellsOfId tbl i).any (withinRing center maxD)).Nodup :=
    (List.nodup_dedup _).filter _
  have h2 : List.Sublist
      (((((tbl.map fun e => e.2).dedup.filter
        fun i => (cellsOfId tbl i).any (withinRing center maxD)).map
        fun i => (i, weightOfId objDist maxD tbl center i)).filter
        fun c => decide (0 < c.2)).map fun q => q.1)
      ((((tbl.map fun e => e.2).dedup.filter
        fun i => (cellsOfId tbl i).any (withinRing center maxD)).map
        fun i => (i, weightOfId objDist maxD tbl center i)).map fun q => q.1) :=
    (List.filter_sublist _).map _
  rw [List.map_map] at h2
  have h3 : ((((tbl.map fun e => e.2).dedup.filter
      fun i => (cellsOfId tbl i).any (withinRing center maxD)).map
      ((fun q : ℕ × ℚ => q.1) ∘ fun i =>
        (i, weightOfId objDist maxD tbl center i)))) =
      (tbl.map fun e => e.2).dedup.filter
        fun i => (cellsOfId tbl i).any (withinRing center maxD) :=
    List.map_id _
  rw [h3] at h2
  exact h0.sublist h2

theorem mem_rankedEnc_iff {objDist : ℕ → ℚ} {tbl : List (Cell × ℕ)}
    {center : Pt} {maxD : ℚ} {q : ℕ × ℚ} :
    q ∈ rankedEnc objDist tbl center maxD ↔
      q ∈ rankedCandidates objDist tbl center maxD ∧ q.2 = 1 := by
  unfold rankedEnc
  rw [List.mem_filter]
  simp

theorem mem_rankedRest_iff {objDist : ℕ → ℚ} {tbl : List (Cell × ℕ)}
    {center : Pt} {maxD : ℚ} {q : ℕ × ℚ} :
    q ∈ rankedRest objDist tbl center maxD ↔
      q ∈ rankedCandidates objDist tbl center maxD ∧ q.2 ≠ 1 := by
  unfold rankedRest
  rw [List.mem_filter]
  simp

/-- C3: every ranked query (with nonnegative object distances) visits
each selected object exactly once (no id repeats), in descending-weight
order; in particular all weight-1.0 objects are emitted before any
object of smaller weight. -/
theorem ForClosestToPoint_ordering (objDist : ℕ → ℚ) (tbl : List (Cell × ℕ))
    (center : Pt) (maxD : ℚ) (topSize : ℕ) (hd : ∀ i, 0 ≤ objDist i) :
    ((ForClosestToPoint objDist tbl center maxD topSize).map
        fun q => q.1).Nodup ∧
      (ForClosestToPoint objDist tbl center maxD topSize).Pairwise
        (fun a b => b.2 ≤ a.2) ∧
      (ForClosestToPoint objDist tbl center maxD topSize).Pairwise
        (fun a b => b.2 = 1 → a.2 = 1) := by
  by_cases hc : maxD ≤ 0 ∨ topSize = 0
  · unfold ForClosestToPoint
    rw [if_pos hc]
    exact ⟨List.nodup_nil, List.Pairwise.nil, List.Pairwise.nil⟩
  have hmd : 0 < maxD := not_le.mp (not_or.mp hc).1
  have hres : ForClosestToPoint objDist tbl center maxD topSize =
      rankedEnc objDist tbl center maxD ++
        (List.insertionSort rankGe (rankedRest objDist tbl center maxD)).take
          (topSize - (rankedEnc objDist tbl center maxD).length) := by
    unfold ForClosestToPoint
    rw [if_neg hc]
  have hcnd := rankedCandidates_ids_nodup objDist tbl center maxD
  have hencsub : List.Sublist
      ((rankedEnc objDist tbl center maxD).map fun q => q.1)
      ((rankedCandidates objDist tbl center maxD).map fun q => q.1) := by
    unfold rankedEnc
    exact (List.filter_sublist _).map _
  have htksub : List.Sublist
      ((List.insertionSort rankGe (rankedRest objDist tbl center maxD)).take
        (topSize - (rankedEnc objDist tbl center maxD).length))
      (List.insertionSort rankGe (rankedRest objDist tbl center maxD)) :=
    List.take_sublist _ _
  have hsortperm : List.Perm
      ((List.insertionSort rankGe (rankedRest objDist tbl center maxD)).map
        fun q => q.1)
      ((rankedRest objDist tbl center maxD).map fun q => q.1) :=
    (List.perm_insertionSort rankGe _).map _
  have hrestsub : List.Sublist
      ((rankedRest objDist tbl center maxD).map fun q => q.1)
      ((rankedCandidates objDist tbl center maxD).map fun q => q.1) := by
    unfold rankedRest
    exact (List.filter_sublist _).map _
  have htkmem : ∀ q ∈ (List.insertionSort rankGe
        (rankedRest objDist tbl center maxD)).take
        (topSize - (rankedEnc objDist tbl center maxD).length),
      q ∈ rankedCandidates objDist tbl center maxD ∧ q.2 ≠ 1 := by
    intro q hq
    exact mem_rankedRest_iff.mp
      ((List.perm_insertionSort rankGe _).mem_iff.mp (htksub.subset hq))
  have hwle : ∀ q ∈ rankedCandidates objDist tbl center maxD, q.2 ≤ 1 := by
    intro q hq
    rw [snd_eq_weight_of_mem_rankedCandidates hq]
    exact weightOfId_le_one (hd q.1) hmd
  refine ⟨?_, ?_, ?_⟩
  · rw [hres, List.map_append, List.nodup_append]
    refine ⟨hcnd.sublist hencsub, ?_, ?_⟩
    · have hnd2 : ((List.insertionSort rankGe
          (rankedRest objDist tbl center maxD)).map fun q => q.1).Nodup :=
        hsortperm.nodup_iff.mpr (hcnd.sublist hrestsub)
      exact hnd2.sublist (htksub.map _)
    · intro i hi1 hi2
      obtain ⟨q1, hq1, hq1i⟩ := List.mem_map.mp hi1
      obtain ⟨q2, hq2, hq2i⟩ := List.mem_map.mp hi2
      obtain ⟨hq1c, hq1w⟩ := mem_rankedEnc_iff.mp hq1
      obtain ⟨hq2c, hq2w⟩ := htkmem q2 hq2
      apply hq2w
      have e1 := snd_eq_weight_of_mem_rankedCandidates hq1c
      have e2 := snd_eq_weight_of_mem_rankedCandidates hq2c
      rw [e2, hq2i, ← hq1i, ← e1, hq1w]
  · rw [hres, List.pairwise_append]
    refine ⟨?_, ?_, ?_⟩
    · apply List.pairwise_of_forall_mem_list
      intro a ha b hb
      rw [(mem_rankedEnc_iff.mp ha).2, (mem_rankedEnc_iff.mp hb).2]
    · exact (List.sorted_insertionSort rankGe _).sublist htksub
    · intro a ha b hb
      rw [(mem_rankedEnc_iff.mp ha).2]
      exact hwle b (htkmem b hb).1
  · have hmem : ∀ q ∈ ForClosestToPoint objDist tbl center maxD topSize,
        q ∈ rankedCandidates objDist tbl center maxD := fun q hq =>
      mem_rankedCandidates_of_mem_ForClosestToPoint hq
    have hpw : (ForClosestToPoint objDist tbl center maxD topSize).Pairwise
        (fun a b => b.2 ≤ a.2) := by
      rw [hres, List.pairwise_append]
      refine ⟨?_, ?_, ?_⟩
      · apply List.pairwise_of_forall_mem_list
        intro a ha b hb
        rw [(mem_rankedEnc_iff.mp ha).2, (mem_rankedEnc_iff.mp hb).2]
      · exact (List.sorted_insertionSort rankGe _).sublist htksub
      · intro a ha b hb
        rw [(mem_rankedEnc_iff.mp ha).2]
        exact hwle b (htkmem b hb).1
    refine hpw.imp_of_mem ?_
    intro a b ha hb hle hb1
    have hale := hwle a (hmem a ha)
    rw [hb1] at hle
    exact le_antisymm hale hle

/-- Witness for C3 on the scenario-A index with unit distances. -/
theorem ForClosestToPoint_ordering_witness :
    (∀ i : ℕ, (0 : ℚ) ≤ (fun _ => (1 : ℚ)) i) ∧
      (((ForClosestToPoint (fun _ => 1) indexA ⟨0, 0⟩ 2 3).map
          fun q => q.1).Nodup ∧
        (ForClosestToPoint (fun _ => 1) indexA ⟨0, 0⟩ 2 3).Pairwise
          (fun a b => b.2 ≤ a.2) ∧
        (ForClosestToPoint (fun _ => 1) indexA ⟨0, 0⟩ 2 3).Pairwise
          (fun a b => b.2 = 1 → a.2 = 1)) :=
  ⟨fun _ => by norm_num,
    ForClosestToPoint_ordering (fun _ => 1) indexA ⟨0, 0⟩ 2 3
      (fun _ => by norm_num)⟩

theorem filter_key_orderedInsert (k : ℕ) (a : Cell × ℕ) :
    ∀ l : List (Cell × ℕ),
      ((List.orderedInsert entryLe a l).filter
          fun e => decide (cellKey e.1 = k)) =
        if cellKey a.1 = k then
          a :: l.filter fun e => decide (cellKey e.1 = k)
        else l.filter fun e => decide (cellKey e.1 = k)
  | [] => by
    by_cases h : cellKey a.1 = k <;>
      simp [List.orderedInsert, List.filter_cons, h]
  | b :: t => by
    rw [List.orderedInsert]
    by_cases hab : entryLe a b
    · rw [if_pos hab]
      by_cases h : cellKey a.1 = k
      · rw [if_pos h, List.filter_cons_of_pos (by simp [h])]
      · rw [if_neg h, List.filter_cons_of_neg (by simp [h])]
    · rw [if_neg hab]
      have hlt : cellKey b.1 < cellKey a.1 := by
        unfold entryLe at hab
        omega
      by_cases hb : cellKey b.1 = k
      · have ha : ¬cellKey a.1 = k := by omega
        rw [List.filter_cons_of_pos (by simp [hb]),
          filter_key_orderedInsert k a t, if_neg ha, if_neg ha,
          List.filter_cons_of_pos (by simp [hb])]
      · by_cases ha : cellKey a.1 = k
        · rw [List.filter_cons_of_neg (by simp [hb]),
            filter_key_orderedInsert k a t, if_pos ha, if_pos ha,
            List.filter_cons_of_neg (by simp [hb])]
        · rw [List.filter_cons_of_neg (by simp [hb]),
            filter_key_orderedInsert k a t, if_neg ha, if_neg ha,
            List.filter_cons_of_neg (by simp [hb])]

theorem filter_key_insertionSort (k : ℕ) :
    ∀ l : List (Cell × ℕ),
      ((List.insertionSort entryLe l).filter
          fun e => decide (cellKey e.1 = k)) =
        l.filter fun e => decide (cellKey e.1 = k)
  | [] => rfl
  | a :: t => by
    rw [List.insertionSort, filter_key_orderedInsert k a _]
    by_cases h : cellKey a.1 = k
    · rw [if_pos h, filter_key_insertionSort k t,
        List.filter_cons_of_pos (by simp [h])]
    · rw [if_neg h, filter_key_insertionSort k t,
        List.filter_cons_of_neg (by simp [h])]

theorem builtIndex_isStableCellSort (objs : List CoveredObject) (depth : ℕ) :
    IsStableCellSort (objectsCovering objs depth) (builtIndex objs depth) :=
  ⟨List.sorted_insertionSort entryLe _, fun k => filter_key_insertionSort k _⟩

theorem sorted_key_filters_unique : ∀ (l₁ l₂ : List (Cell × ℕ)),
    l₁.Sorted entryLe → l₂.Sorted entryLe →
    (∀ k : ℕ, (l₁.filter fun e => decide (cellKey e.1 = k)) =
      l₂.filter fun e => decide (cellKey e.1 = k)) → l₁ = l₂
  | [], [], _, _, _ => rfl
  | [], b :: t₂, _, _, h => by
    have hb := h (cellKey b.1)
    rw [List.filter_nil, List.filter_cons_of_pos (by simp)] at hb
    exact absurd hb.symm (List.cons_ne_nil _ _)
  | a :: t₁, [], _, _, h => by
    have ha := h (cellKey a.1)
    rw [List.filter_nil, List.filter_cons_of_pos (by simp)] at ha
    exact absurd ha (List.cons_ne_nil _ _)
  | a :: t₁, b :: t₂, s₁, s₂, h => by
    have ha2 : a ∈ b :: t₂ := by
      have hmf : a ∈ (b :: t₂).filter
          fun e => decide (cellKey e.1 = cellKey a.1) := by
        rw [← h (cellKey a.1)]
        exact List.mem_filter.mpr ⟨List.mem_cons_self a t₁, by simp⟩
      exact (List.mem_filter.mp hmf).1
    have hb1 : b ∈ a :: t₁ := by
      have hmf : b ∈ (a :: t₁).filter
          fun e => decide (cellKey e.1 = cellKey b.1) := by
        rw [h (cellKey b.1)]
        exact List.mem_filter.mpr ⟨List.mem_cons_self b t₂, by simp⟩
      exact (List.mem_filter.mp hmf).1
    have hba : cellKey b.1 ≤ cellKey a.1 := by
      rcases List.mem_cons.mp ha2 with heq | hx
      · rw [heq]
      · exact List.rel_of_sorted_cons s₂ a hx
    have hab2 : cellKey a.1 ≤ cellKey b.1 := by
      rcases List.mem_cons.mp hb1 with heq | hx
      · rw [heq]
      · exact List.rel_of_sorted_cons s₁ b hx
    have hab : cellKey a.1 = cellKey b.1 := Nat.le_antisymm hab2 hba
    have h1 := h (cellKey a.1)
    rw [List.filter_cons_of_pos (by simp),
      List.filter_cons_of_pos (by simp [hab])] at h1
    have hhead : a = b := by
      injection h1 with hh _
    have htail : (t₁.filter fun e => decide (cellKey e.1 = cellKey a.1)) =
        t₂.filter fun e => decide (cellKey e.1 = cellKey a.1) := by
      injection h1 with _ ht
    have htails : ∀ k : ℕ, (t₁.filter fun e => decide (cellKey e.1 = k)) =
        t₂.filter fun e => decide (cellKey e.1 = k) := by
      intro k
      by_cases hk : cellKey a.1 = k
      · rw [← hk]
        exact htail
      · have hw := h k
        rw [List.filter_cons_of_neg (by simp [hk]),
          List.filter_cons_of_neg
            (by simp [show ¬cellKey b.1 = k by rw [← hab]; exact hk])] at hw
        exact hw
    rw [hhead, sorted_key_filters_unique t₁ t₂ s₁.of_cons s₂.of_cons htails]

/-- C7: the build output is deterministic: any two runs over the same
ordered input that produce a conforming stable by-cell sort of the
merged covering entries produce the same entry list — which is the
model's `builtIndex` — and hence byte-identical serialized output. -/
theorem build_deterministic (objs : List CoveredObject) (d : ℕ)
    (l₁ l₂ : List (Cell × ℕ))
    (h₁ : IsStableCellSort (objectsCovering objs d) l₁)
    (h₂ : IsStableCellSort (objectsCovering objs d) l₂) :
    l₁ = builtIndex objs d ∧ serializeIndex d l₁ = serializeIndex d l₂ := by
  have hb := builtIndex_isStableCellSort objs d
  have e1 : l₁ = builtIndex objs d :=
    sorted_key_filters_unique l₁ (builtIndex objs d) h₁.1 hb.1
      (fun k => (h₁.2 k).trans (hb.2 k).symm)
  have e2 : l₂ = builtIndex objs d :=
    sorted_key_filters_unique l₂ (builtIndex objs d) h₂.1 hb.1
      (fun k => (h₂.2 k).trans (hb.2 k).symm)
  exact ⟨e1, by rw [e1, e2]⟩

set_option maxRecDepth 8000 in
/-- Witness for C7: the single-object covering is itself a conforming
stable sort, and two runs over it serialize identically. -/
theorem build_deterministic_witness :
    IsStableCellSort (objectsCovering objsOrigin kGeoObjectsDepthLevels)
        (objectsCovering objsOrigin kGeoObjectsDepthLevels) ∧
      objectsCovering objsOrigin kGeoObjectsDepthLevels =
        builtIndex objsOrigin kGeoObjectsDepthLevels ∧
      serializeIndex kGeoObjectsDepthLevels
          (objectsCovering objsOrigin kGeoObjectsDepthLevels) =
        serializeIndex kGeoObjectsDepthLevels
          (objectsCovering objsOrigin kGeoObjectsDepthLevels) := by
  have hs : IsStableCellSort
      (objectsCovering objsOrigin kGeoObjectsDepthLevels)
      (objectsCovering objsOrigin kGeoObjectsDepthLevels) := by
    constructor
    · exact of_decide_eq_true (by with_unfolding_all rfl)
    · intro k
      rfl
  have h := build_deterministic objsOrigin kGeoObjectsDepthLevels _ _ hs hs
  exact ⟨hs, h.1, h.2⟩

end GeoCore
